import Mathlib

/-
Verification of the matchmaking and rating engine of the
Badminton-ELO-Queueing repository (source files v1.py and v4.py; v3.py is an
intermediate iteration whose relevant logic coincides with v4.py).

Modelling conventions of this shallow embedding:

* Python numbers (ints and floats) are embedded as elements of an ordered
  field (or ordered ring where no division occurs).  The queue / pairing
  layer only compares, adds, subtracts and takes absolute values of
  ratings, so it is stated generically over `[LinearOrderedRing α]` and is
  evaluated at `ℤ` or `ℚ` on the concrete integer-rated examples.  The
  rating-update layer divides and computes `10 ** x` for arbitrary
  exponents; it is evaluated at `ℝ` with `Real.rpow` (exact real arithmetic
  in place of IEEE floats).  To keep the layers connected, the `10 ** x`
  operation is a parameter `tenPow` of the generic definitions,
  instantiated with `fun x => (10:ℝ) ^ x` to obtain the actual program.
* A Python dict (v4's `Queue.players`, keyed by `player.name`) is embedded
  as an insertion-ordered list of players with unique names: assignment to
  an existing key replaces the entry in place, assignment to a fresh key
  appends, `del` removes the first (unique) entry with that name.  Python's
  `sorted` is stable, which the insertion sorts below reproduce.
* v1's `Queue.players` deque is embedded as a plain list; `deque.remove`
  removes the first equal element.
* v1's doubles `team2 = list(set(...) - set(team1))` has an unspecified
  iteration order; the embedding fixes the ascending-position order for the
  complementary pair and theorems treat `team2` as unordered where order
  could matter.
* `Match.timestamp` (v4) is produced by an out-of-scope collaborator
  (`datetime.now`) and is omitted; no claim mentions it.
* v4's outcome-recording menu branch has `match.record_outcome(outcome)`
  commented out, so `Match.outcome` is never written; the embedding of that
  branch likewise leaves `outcome` untouched.
-/

namespace BadmintonElo

/-- A player record, mirroring `Player.__init__` of v1.py/v4.py: `id`,
`name`, `elo` (default 1200 at the call sites that create fresh players),
`availability` (initially `True`) and `match_history`.  History entries are
opaque summaries; `Player.record_match` is never called in the v1/v4 session
flows, so their internal shape is irrelevant to every claim. -/
structure Player (α : Type) where
  id : String
  name : String
  elo : α
  availability : Bool
  matchHistory : List String
deriving DecidableEq

/-- Match participants: v1/v4 store `[p1, p2]` for singles and
`[[p1, p2], [p3, p4]]` for doubles; embedded as a tagged variant. -/
inductive Participants (α : Type) where
  | singles (p₁ p₂ : Player α)
  | doubles (t₁ t₂ : Player α × Player α)
deriving DecidableEq

/-- v1.py `Match`: id, players, match_type, outcome. -/
structure MatchV1 (α : Type) where
  id : Nat
  players : Participants α
  matchType : Bool  -- `true` = singles, `false` = doubles (the string tag)
  outcome : Option Int
deriving DecidableEq

/-- v4.py `Match`: id, players, match_type, outcome, score (timestamp
omitted, see the header comment). -/
structure MatchV4 (α : Type) where
  id : Nat
  players : Participants α
  matchType : Bool  -- `true` = singles, `false` = doubles (the string tag)
  outcome : Option Int
  score : Option String
deriving DecidableEq

/-- The requested match type passed to `create_match` (`'singles'` or
`'doubles'`). -/
inductive MatchType where
  | singles
  | doubles
deriving DecidableEq

/-- v1.py `Queue`: a deque of players plus the match ledger (the source
attribute is named `matches`, a reserved word here, hence `matchList`). -/
structure QueueV1 (α : Type) where
  players : List (Player α)
  matchList : List (MatchV1 α)
deriving DecidableEq

/-- v4.py `Queue`: a name-keyed dict of players (embedded as an
insertion-ordered list with unique names) plus the match ledger (source
attribute `matches`, a reserved word here, hence `matchList`). -/
structure QueueV4 (α : Type) where
  players : List (Player α)
  matchList : List (MatchV4 α)
deriving DecidableEq

/-- How v1.py's `create_match` terminates when it does not return a match:
`notEnough` is the clean `print("Not enough players."); return None` path,
`noneCrash` is the uncaught `AttributeError` raised by
`p1.availability = False` when the selection loops found no candidates
(`p1` is still `None`), which aborts the session. -/
inductive V1Err where
  | notEnough
  | noneCrash
deriving DecidableEq

instance {ε σ : Type} [DecidableEq ε] [DecidableEq σ] :
    DecidableEq (Except ε σ)
  | .error e, .error e' => decidable_of_iff (e = e') (by simp)
  | .error _, .ok _ => isFalse (by simp)
  | .ok _, .error _ => isFalse (by simp)
  | .ok a, .ok b => decidable_of_iff (a = b) (by simp)

section Sorting

variable {α : Type} [LinearOrderedRing α]

/-- Stable insertion into an ascending-by-`elo` list: the new element goes
after every element whose rating is `≤` its own, reproducing the tie
behaviour of Python's stable `sorted(..., key=lambda x: x.elo)`. -/
def insertAsc (p : Player α) : List (Player α) → List (Player α)
  | [] => [p]
  | q :: qs => if q.elo ≤ p.elo then q :: insertAsc p qs else p :: q :: qs

/-- Python's `sorted(pool, key=lambda x: x.elo)` (stable, ascending). -/
def sortAsc (ps : List (Player α)) : List (Player α) :=
  ps.foldl (fun acc p => insertAsc p acc) []

/-- Stable insertion into a descending-by-`elo` list: the new element goes
after every element whose rating is `≥` its own. -/
def insertDesc (p : Player α) : List (Player α) → List (Player α)
  | [] => [p]
  | q :: qs => if p.elo ≤ q.elo then q :: insertDesc p qs else p :: q :: qs

/-- Python's `sorted(pool, key=lambda x: x.elo, reverse=True)` (stable,
descending). -/
def sortDesc (ps : List (Player α)) : List (Player α) :=
  ps.foldl (fun acc p => insertDesc p acc) []

end Sorting

section Scan

variable {α β : Type} [LinearOrderedRing α]

/-- The selection loop shared by v1.py's singles and doubles pairing:
iterate over a candidate list carrying the best candidate so far
(`min_diff` starts at `float('inf')`, embedded as the accumulator `none`),
replacing it only when a candidate's weight is strictly smaller, so the
first candidate attaining the minimum weight wins ties. -/
def firstMinBy (w : β → α) : Option β → List β → Option β
  | best, [] => best
  | none, c :: cs => firstMinBy w (some c) cs
  | some b, c :: cs => firstMinBy w (some (if w c < w b then c else b)) cs

end Scan

section Combos

variable {β : Type}

/-- All ordered pairs `(l[i], l[j])` with `i < j`, in the order produced by
the two inner nested loops of v1.py's doubles search. -/
def combosOf2 : List β → List (β × β)
  | [] => []
  | x :: xs => (xs.map (fun a => (x, a))) ++ combosOf2 xs

/-- All ordered triples with ascending positions, nested-loop order. -/
def combosOf3 : List β → List (β × β × β)
  | [] => []
  | x :: xs => ((combosOf2 xs).map (fun t => (x, t))) ++ combosOf3 xs

/-- All ordered quadruples `(l[i], l[j], l[k], l[l])` with
`i < j < k < l`, in the order of v1.py's four nested loops. -/
def combosOf4 : List β → List (β × β × β × β)
  | [] => []
  | x :: xs => ((combosOf3 xs).map (fun t => (x, t))) ++ combosOf4 xs

end Combos

section EloModel

variable {α : Type} [LinearOrderedField α]

/-- v4.py `_elo_expectation(player_elo, opponent_elo)` =
`1 / (1 + 10 ** ((opponent_elo - player_elo) / 400))`, with the
`10 ** x` operation abstracted as `tenPow` (instantiated with real
exponentiation in `tenPowR` below). -/
def eloExpectationG (tenPow : α → α) (playerElo opponentElo : α) : α :=
  1 / (1 + tenPow ((opponentElo - playerElo) / 400))

/-- v4.py `_elo_update(player_elo, expected, actual)` =
`player_elo + K * (actual - expected)`; `k` is the enclosing
`calculate_elo`'s `K` parameter. -/
def eloUpdateG (k playerElo expected actual : α) : α :=
  playerElo + k * (actual - expected)

/-- v4.py `Player.calculate_elo(opponent, outcome)` with the default
`K=32` (no caller passes another `K`): recompute `self.elo` from the
expectation against `opponent.elo`, and reset `self.availability = True`. -/
def calculateEloG (tenPow : α → α) (self opponent : Player α)
    (outcome : α) : Player α :=
  { self with
      elo := eloUpdateG 32 self.elo
        (eloExpectationG tenPow self.elo opponent.elo) outcome
      availability := true }

/-- The rating-update part of menu option 5 ("Record match outcome") of
v4.py's `prompt_user` (lines 186–197; v1.py lines 158–167 are identical):
for singles, `players[0].calculate_elo(players[1], outcome)` followed by
`players[1].calculate_elo(players[0], 1 - outcome)` — the second call reads
`players[0].elo` after the first call has already overwritten it; for
doubles, both team averages are computed first, then each of the four
players is updated against a temporary player carrying the opposing team's
(pre-match) average, with `outcome` for team 1 and `1 - outcome` for
team 2. -/
def recordOutcomeG (tenPow : α → α) (ps : Participants α)
    (outcome : α) : Participants α :=
  match ps with
  | .singles p₁ p₂ =>
      let p₁' := calculateEloG tenPow p₁ p₂ outcome
      let p₂' := calculateEloG tenPow p₂ p₁' (1 - outcome)
      .singles p₁' p₂'
  | .doubles (a, b) (c, d) =>
      let team1Avg := (a.elo + b.elo) / 2
      let team2Avg := (c.elo + d.elo) / 2
      let tempTeam2 : Player α := ⟨"temp", "temp", team2Avg, true, []⟩
      let tempTeam1 : Player α := ⟨"temp", "temp", team1Avg, true, []⟩
      .doubles
        (calculateEloG tenPow a tempTeam2 outcome,
         calculateEloG tenPow b tempTeam2 outcome)
        (calculateEloG tenPow c tempTeam1 (1 - outcome),
         calculateEloG tenPow d tempTeam1 (1 - outcome))

/-- The whole of v4.py's menu option 5 as it acts on the session state
relevant to the claims: it rewrites the players referenced by the match
(via `calculate_elo`) and records the score on the match, but never touches
`queue.players` (no re-insertion of the removed players); the
`match.record_outcome(outcome)` call is commented out in v4.py, so
`outcome` stays as it was. -/
def recordMatchOutcomeV4 (tenPow : α → α) (q : QueueV4 α) (m : MatchV4 α)
    (outcome : α) (score : String) : QueueV4 α × MatchV4 α :=
  (q, { m with players := recordOutcomeG tenPow m.players outcome
               score := some score })

/-- The program's `10 ** x` on Python floats, embedded as exact real
exponentiation. -/
noncomputable def tenPowR (x : ℝ) : ℝ :=
  (10 : ℝ) ^ x

end EloModel

section QueueOpsV4

variable {α : Type} [LinearOrderedRing α]

/-- v4.py `Queue.add_player`: `self.players[player.name] = player`.
Python dict assignment replaces the value in place when the key exists and
appends a new entry otherwise — in particular it never fails and silently
overwrites an existing record. -/
def addPlayer (q : QueueV4 α) (p : Player α) : QueueV4 α :=
  { q with players :=
      if q.players.any (fun r => r.name == p.name) then
        q.players.map (fun r => if r.name = p.name then p else r)
      else q.players ++ [p] }

/-- v4.py `Queue.remove_player`: `del self.players[player_name]` (removes
the unique entry with that key; names are unique dict keys). -/
def removePlayer (q : QueueV4 α) (name : String) : QueueV4 α :=
  { q with players := q.players.eraseP (fun r => r.name == name) }

/-- Registry lookup `self.players[name]` / `name in self.players`; `none`
is the `KeyError` / "Player not found." outcome. -/
def lookupPlayer (q : QueueV4 α) (name : String) : Option (Player α) :=
  q.players.find? (fun r => r.name == name)

/-- v4.py `Queue.create_match` (lines 90–117): guard `len < 2`; sort the
pool **descending** by rating; for singles take the two top-rated players,
for doubles guard `len < 4` and take the four top-rated; then remove the
selected players from the registry by name, append the match (id =
current ledger length) and return it.  No availability flag is touched. -/
def createMatchV4 (q : QueueV4 α) (mt : MatchType) :
    Option (MatchV4 α) × QueueV4 α :=
  if q.players.length < 2 then (none, q)
  else
    match mt with
    | .singles =>
        match sortDesc q.players with
        | p₁ :: p₂ :: _ =>
            let m : MatchV4 α :=
              ⟨q.matchList.length, .singles p₁ p₂, true, none, none⟩
            let q₂ := removePlayer (removePlayer q p₁.name) p₂.name
            (some m, { q₂ with matchList := q₂.matchList ++ [m] })
        | _ => (none, q)  -- unreachable: the sorted pool has ≥ 2 entries
    | .doubles =>
        if q.players.length < 4 then (none, q)
        else
          match sortDesc q.players with
          | p₁ :: p₂ :: p₃ :: p₄ :: _ =>
              let m : MatchV4 α :=
                ⟨q.matchList.length, .doubles (p₁, p₂) (p₃, p₄), false,
                  none, none⟩
              let q₄ := removePlayer (removePlayer (removePlayer
                (removePlayer q p₁.name) p₂.name) p₃.name) p₄.name
              (some m, { q₄ with matchList := q₄.matchList ++ [m] })
          | _ => (none, q)  -- unreachable: the sorted pool has ≥ 4 entries

end QueueOpsV4

section QueueOpsV1

variable {α : Type} [LinearOrderedRing α]

/-- `p.availability = False` performed on a selected player. -/
def markUnavailable (p : Player α) : Player α :=
  { p with availability := false }

/-- The weight minimised by v1.py's singles selection loop:
`abs(players_sorted[i].elo - players_sorted[i+1].elo)`. -/
def singlesGap (pr : Player α × Player α) : α :=
  |pr.1.elo - pr.2.elo|

/-- The weight minimised by v1.py's doubles selection loops:
`abs(sum(team1 elos) - sum(team2 elos))` for the fixed split
`{i,j}` vs `{k,l}` of a quadruple with ascending positions. -/
def doublesGap (t : Player α × Player α × Player α × Player α) : α :=
  |t.1.elo + t.2.1.elo - (t.2.2.1.elo + t.2.2.2.elo)|

/-- v1.py `Queue.create_match` (lines 69–115): guard `len < 2`; for
singles, sort ascending and run the adjacent-pair loop keeping the first
strict minimum of the rating gap; for doubles, sort ascending and run the
four nested loops keeping the first strict minimum of the fixed-split sum
difference.  Selected players are marked unavailable and removed from the
deque (first equal element); the match is appended and returned.  When the
selection loops found no candidate (doubles with 2 or 3 players) the code
executes `p1.availability = False` with `p1 = None` and dies with an
uncaught `AttributeError` (`V1Err.noneCrash`) before mutating anything.
For doubles the final teams are `team1 = [p1, p2] if p1.elo + p2.elo >
p3.elo + p4.elo else [p1, p3]` and `team2 = list(set of the others)`
(complement order fixed here, see the header comment). -/
def createMatchV1 (q : QueueV1 α) (mt : MatchType) :
    Except V1Err (MatchV1 α) × QueueV1 α :=
  if q.players.length < 2 then (.error .notEnough, q)
  else
    match mt with
    | .singles =>
        let s := sortAsc q.players
        match firstMinBy singlesGap none (s.zip s.tail) with
        | none => (.error .noneCrash, q)
        | some (p₁, p₂) =>
            let m : MatchV1 α :=
              ⟨q.matchList.length,
                .singles (markUnavailable p₁) (markUnavailable p₂),
                true, none⟩
            (.ok m,
              ⟨(q.players.erase p₁).erase p₂, q.matchList ++ [m]⟩)
    | .doubles =>
        let s := sortAsc q.players
        match firstMinBy doublesGap none (combosOf4 s) with
        | none => (.error .noneCrash, q)
        | some (p₁, p₂, p₃, p₄) =>
            let teams :=
              if p₁.elo + p₂.elo > p₃.elo + p₄.elo then
                Participants.doubles
                  (markUnavailable p₁, markUnavailable p₂)
                  (markUnavailable p₃, markUnavailable p₄)
              else
                Participants.doubles
                  (markUnavailable p₁, markUnavailable p₃)
                  (markUnavailable p₂, markUnavailable p₄)
            let m : MatchV1 α := ⟨q.matchList.length, teams, false, none⟩
            (.ok m,
              ⟨(((q.players.erase p₁).erase p₂).erase p₃).erase p₄,
                q.matchList ++ [m]⟩)

end QueueOpsV1

section Persistence

/-- Decimal value of a digit string, for the embedding of Python's
`int(...)`. -/
def digitsToNat (l : List Char) : Nat :=
  l.foldl (fun acc c => acc * 10 + (c.toNat - '0'.toNat)) 0

/-- Python's `int(s)` on the strings the CSV writer emits: an optional
sign followed by one or more digits parses; anything else — in particular
any string containing a decimal point, such as the textual form of a
non-integral rating — raises `ValueError` (`none`). -/
def parsePyInt (s : String) : Option Int :=
  match s.data with
  | [] => none
  | '-' :: rest =>
      if rest ≠ [] ∧ rest.all (fun c => c.isDigit) then
        some (-(digitsToNat rest : Int))
      else none
  | l =>
      if l.all (fun c => c.isDigit) then some ((digitsToNat l : Int))
      else none

/-- Fractional decimal digits of the proper fraction `r / d` (`0 ≤ r < d`),
produced by long division with fuel (every rating the program writes is a
dyadic rational, so its expansion terminates and is rendered exactly within
the fuel). -/
def decDigits : Nat → Nat → Nat → String
  | 0, _, _ => ""
  | fuel + 1, r, d =>
      if r = 0 then ""
      else toString (10 * r / d) ++ decDigits fuel (10 * r % d) d

/-- The textual form of a rating as Python's `csv.writer` renders
`player.elo`: integral values (ints loaded from the CSV) print without a
decimal point; any value with a fractional part prints as sign, integer
part of the absolute value, `'.'`, fractional digits — exactly the forms
`str` gives for the terminating decimals arising here. -/
def showElo (q : ℚ) : String :=
  if q.den = 1 then toString q.num
  else
    (if q.num < 0 then "-" else "") ++ toString (q.num.natAbs / q.den) ++
      "." ++ decDigits 4000 (q.num.natAbs % q.den) q.den

/-- v4.py `Queue.save_players_to_csv`: one `[id, name, elo]` row per
registry entry, in registry order. -/
def savePlayersToCsv (q : QueueV4 ℚ) : List (String × String × String) :=
  q.players.map (fun p => (p.id, p.name, showElo p.elo))

/-- v4.py `Queue.load_players_from_csv`: for each row construct
`Player(id, name, int(elo))` (fresh availability and history) and
`add_player` it; a `ValueError` from `int(...)` is caught by the blanket
`except`, which prints and abandons the rest of the load, keeping the rows
already added. -/
def loadPlayersFromCsv : List (String × String × String) → QueueV4 ℚ →
    QueueV4 ℚ
  | [], q => q
  | (i, n, e) :: rest, q =>
      match parsePyInt e with
      | none => q
      | some z => loadPlayersFromCsv rest (addPlayer q ⟨i, n, (z : ℚ), true, []⟩)

end Persistence

section Fixtures

/-!
Concrete registries used to evaluate the embedding on the inputs named by
the specification's examples (ids and names follow the creation order of
the interactive flow; every player starts available with empty history).
-/

def pA1000 : Player ℚ := ⟨"0", "a", 1000, true, []⟩

def pB1005 : Player ℚ := ⟨"1", "b", 1005, true, []⟩

def pC1200 : Player ℚ := ⟨"2", "c", 1200, true, []⟩

/-- The spec's singles example pool `[1000, 1005, 1200]`, v4 registry. -/
def qPoolV4 : QueueV4 ℚ := ⟨[pA1000, pB1005, pC1200], []⟩

/-- The spec's singles example pool `[1000, 1005, 1200]`, v1 deque. -/
def qPoolV1 : QueueV1 ℚ := ⟨[pA1000, pB1005, pC1200], []⟩

def dB1000 : Player ℚ := ⟨"1", "b", 1000, true, []⟩

def dC1000 : Player ℚ := ⟨"2", "c", 1000, true, []⟩

def dD1200 : Player ℚ := ⟨"3", "d", 1200, true, []⟩

/-- A four-player v1 pool rated `[1000, 1000, 1000, 1200]`: its only
4-subset has fixed split `{a,b}` vs `{c,d}` with sums `2000 < 2200`. -/
def qDoublesV1 : QueueV1 ℚ := ⟨[pA1000, dB1000, dC1000, dD1200], []⟩

/-- A three-player v1 pool (doubles must fail). -/
def qTrioV1 : QueueV1 ℚ := ⟨[pA1000, dB1000, dC1000], []⟩

/-- A three-player v4 pool (doubles must fail). -/
def qTrioV4 : QueueV4 ℚ := ⟨[pA1000, dB1000, dC1000], []⟩

/-- A two-player v4 pool for singles selection. -/
def qTwoV4 : QueueV4 ℚ := ⟨[pA1000, pC1200], []⟩

def pE1100 : Player ℚ := ⟨"3", "e", 1100, true, []⟩

/-- A four-player v4 pool for doubles selection. -/
def qFourV4 : QueueV4 ℚ := ⟨[pA1000, pB1005, pC1200, pE1100], []⟩

/-- The match v4.py's `create_match('doubles')` produces on `qFourV4`:
the four top-rated of the descending sort, split positionally. -/
def mFourOut : MatchV4 ℚ :=
  ⟨0, .doubles (pC1200, pE1100) (pB1005, pA1000), false, none, none⟩

/-- The queue state after that doubles selection: all four players deleted
from the registry, match appended. -/
def qFourAfter : QueueV4 ℚ := ⟨[], [mFourOut]⟩

/-- An existing registry record named "x" with nonempty history. -/
def pOldX : Player ℚ := ⟨"0", "x", 1200, true, ["vs w: 1"]⟩

/-- A freshly created player that reuses the name "x". -/
def pNewX : Player ℚ := ⟨"1", "x", 1200, true, []⟩

/-- A registry holding one player whose rating `mkRat 2433 2 = 1216.5` is
the kind of non-integral value every recorded match outcome produces. -/
def qC9 : QueueV4 ℚ := ⟨[⟨"0", "x", mkRat 2433 2, true, []⟩], []⟩

def emptyQueueV4 : QueueV4 ℚ := ⟨[], []⟩

/-- ℤ copies of the pairing fixtures (the claims' example ratings are
integers; integer arithmetic is kernel-evaluable, so witnesses and
counterexamples about the v1 selection loops instantiate the generic
theorems at `α := ℤ`). -/
def zA1000 : Player ℤ := ⟨"0", "a", 1000, true, []⟩

def zB1005 : Player ℤ := ⟨"1", "b", 1005, true, []⟩

def zC1200 : Player ℤ := ⟨"2", "c", 1200, true, []⟩

/-- The spec's singles example pool `[1000, 1005, 1200]`, v1 deque, ℤ. -/
def zPoolV1 : QueueV1 ℤ := ⟨[zA1000, zB1005, zC1200], []⟩

def zDB1000 : Player ℤ := ⟨"1", "b", 1000, true, []⟩

def zDC1000 : Player ℤ := ⟨"2", "c", 1000, true, []⟩

def zDD1200 : Player ℤ := ⟨"3", "d", 1200, true, []⟩

/-- A four-player v1 pool rated `[1000, 1000, 1000, 1200]`, ℤ. -/
def zDoublesV1 : QueueV1 ℤ := ⟨[zA1000, zDB1000, zDC1000, zDD1200], []⟩

/-- A three-player v1 pool, ℤ. -/
def zTrioV1 : QueueV1 ℤ := ⟨[zA1000, zDB1000, zDC1000], []⟩

/-- The match v1.py's `create_match('singles')` produces on `zPoolV1`. -/
def mSinglesOut : MatchV1 ℤ :=
  ⟨0, .singles ⟨"0", "a", 1000, false, []⟩ ⟨"1", "b", 1005, false, []⟩,
    true, none⟩

/-- The queue state after that singles selection: the `1200`-rated player
stays in the pool. -/
def qSinglesAfter : QueueV1 ℤ := ⟨[zC1200], [mSinglesOut]⟩

/-- The match v1.py's `create_match('doubles')` produces on `zDoublesV1`:
`team1 = [a, c]` (ratings 1000 and 1000), `team2 = {b, d}` (1000, 1200). -/
def mDoublesOut : MatchV1 ℤ :=
  ⟨0, .doubles (⟨"0", "a", 1000, false, []⟩, ⟨"2", "c", 1000, false, []⟩)
    (⟨"1", "b", 1000, false, []⟩, ⟨"3", "d", 1200, false, []⟩),
    false, none⟩

/-- The queue state after that doubles selection. -/
def qDoublesAfter : QueueV1 ℤ := ⟨[], [mDoublesOut]⟩

noncomputable def pAr : Player ℝ := ⟨"0", "A", 1200, true, []⟩

noncomputable def pBr : Player ℝ := ⟨"1", "B", 1200, true, []⟩

noncomputable def pCr : Player ℝ := ⟨"2", "C", 1100, true, []⟩

noncomputable def pDr : Player ℝ := ⟨"3", "D", 1100, true, []⟩

end Fixtures

section Lemmas

variable {α β : Type} [LinearOrderedRing α]

theorem mem_insertAsc {p x : Player α} : ∀ {l : List (Player α)},
    x ∈ insertAsc p l ↔ x = p ∨ x ∈ l := by
  intro l
  induction l with
  | nil => simp [insertAsc]
  | cons q qs ih =>
      by_cases h : q.elo ≤ p.elo
      · simp [insertAsc, h, ih]
        tauto
      · simp [insertAsc, h]

theorem mem_sortAsc {x : Player α} {l : List (Player α)} :
    x ∈ sortAsc l ↔ x ∈ l := by
  suffices h : ∀ (l : List (Player α)) (acc : List (Player α)),
      x ∈ l.foldl (fun acc p => insertAsc p acc) acc ↔ x ∈ acc ∨ x ∈ l by
    simpa [sortAsc] using (h l [])
  intro l
  induction l with
  | nil => simp
  | cons p ps ih =>
      intro acc
      simp only [List.foldl_cons, ih, mem_insertAsc, List.mem_cons]
      tauto

theorem mem_insertDesc {p x : Player α} : ∀ {l : List (Player α)},
    x ∈ insertDesc p l ↔ x = p ∨ x ∈ l := by
  intro l
  induction l with
  | nil => simp [insertDesc]
  | cons q qs ih =>
      by_cases h : p.elo ≤ q.elo
      · simp [insertDesc, h, ih]
        tauto
      · simp [insertDesc, h]

theorem mem_sortDesc {x : Player α} {l : List (Player α)} :
    x ∈ sortDesc l ↔ x ∈ l := by
  suffices h : ∀ (l : List (Player α)) (acc : List (Player α)),
      x ∈ l.foldl (fun acc p => insertDesc p acc) acc ↔ x ∈ acc ∨ x ∈ l by
    simpa [sortDesc] using (h l [])
  intro l
  induction l with
  | nil => simp
  | cons p ps ih =>
      intro acc
      simp only [List.foldl_cons, ih, mem_insertDesc, List.mem_cons]
      tauto

theorem length_insertAsc (p : Player α) : ∀ (l : List (Player α)),
    (insertAsc p l).length = l.length + 1 := by
  intro l
  induction l with
  | nil => rfl
  | cons q qs ih =>
      by_cases h : q.elo ≤ p.elo <;> simp [insertAsc, h, ih]

theorem length_sortAsc (l : List (Player α)) :
    (sortAsc l).length = l.length := by
  suffices h : ∀ (l acc : List (Player α)),
      (l.foldl (fun acc p => insertAsc p acc) acc).length =
        acc.length + l.length by
    simpa [sortAsc] using (h l [])
  intro l
  induction l with
  | nil => simp
  | cons p ps ih =>
      intro acc
      simp only [List.foldl_cons, ih, length_insertAsc, List.length_cons]
      omega

theorem pairwise_insertAsc (p : Player α) : ∀ {l : List (Player α)},
    l.Pairwise (fun a b => a.elo ≤ b.elo) →
    (insertAsc p l).Pairwise (fun a b => a.elo ≤ b.elo) := by
  intro l
  induction l with
  | nil => intro _; simp [insertAsc]
  | cons q qs ih =>
      intro hl
      rw [List.pairwise_cons] at hl
      by_cases h : q.elo ≤ p.elo
      · rw [insertAsc, if_pos h, List.pairwise_cons]
        refine ⟨?_, ih hl.2⟩
        intro x hx
        rcases mem_insertAsc.mp hx with hx | hx
        · simpa [hx] using h
        · exact hl.1 x hx
      · rw [insertAsc, if_neg h, List.pairwise_cons]
        push_neg at h
        refine ⟨?_, List.pairwise_cons.mpr hl⟩
        intro x hx
        rcases List.mem_cons.mp hx with hx | hx
        · simpa [hx] using h.le
        · exact le_trans h.le (hl.1 x hx)

theorem pairwise_sortAsc (l : List (Player α)) :
    (sortAsc l).Pairwise (fun a b => a.elo ≤ b.elo) := by
  suffices h : ∀ (l acc : List (Player α)),
      acc.Pairwise (fun a b => a.elo ≤ b.elo) →
      (l.foldl (fun acc p => insertAsc p acc) acc).Pairwise
        (fun a b => a.elo ≤ b.elo) by
    exact h l [] (by simp)
  intro l
  induction l with
  | nil => intro acc h; simpa using h
  | cons p ps ih =>
      intro acc hacc
      exact ih _ (pairwise_insertAsc p hacc)

/-- Adjacent elements of a `Pairwise`-sorted list are related: every pair
produced by `l.zip l.tail` (index `i` paired with index `i+1`) satisfies the
ordering relation. -/
theorem pairwise_zip_tail {l : List (Player α)}
    (h : l.Pairwise (fun a b => a.elo ≤ b.elo)) :
    ∀ x ∈ l.zip l.tail, x.1.elo ≤ x.2.elo := by
  induction l with
  | nil => simp
  | cons a t ih =>
      rw [List.pairwise_cons] at h
      cases t with
      | nil => simp
      | cons b t' =>
          intro x hx
          rcases List.mem_cons.mp hx with hx | hx
          · subst hx
            exact h.1 b (by simp)
          · exact ih h.2 x hx


/-- What the loop computes, starting from an already-held best `b`: either
`b` survives (it is `≤` every candidate) or the result is the first
candidate strictly better than `b` and than everything before it, and `≤`
everything after it. -/
theorem firstMinBy_some (w : β → α) :
    ∀ (l : List β) (b : β), ∃ x, firstMinBy w (some b) l = some x ∧
      ((x = b ∧ ∀ y ∈ l, w b ≤ w y) ∨
       (∃ l₁ l₂, l = l₁ ++ x :: l₂ ∧ w x < w b ∧
         (∀ y ∈ l₁, w x < w y) ∧ (∀ y ∈ l₂, w x ≤ w y))) := by
  intro l
  induction l with
  | nil => intro b; exact ⟨b, rfl, Or.inl ⟨rfl, by simp⟩⟩
  | cons c cs ih =>
      intro b
      by_cases hc : w c < w b
      · obtain ⟨x, hx, hcase⟩ := ih c
        refine ⟨x, by rw [firstMinBy, if_pos hc]; exact hx, Or.inr ?_⟩
        rcases hcase with ⟨rfl, hall⟩ | ⟨l₁, l₂, rfl, hlt, hleft, hright⟩
        · exact ⟨[], cs, rfl, hc, by simp, hall⟩
        · refine ⟨c :: l₁, l₂, rfl, lt_trans hlt hc, ?_, hright⟩
          intro y hy
          rcases List.mem_cons.mp hy with rfl | hy
          · exact hlt
          · exact hleft y hy
      · obtain ⟨x, hx, hcase⟩ := ih b
        push_neg at hc
        refine ⟨x, by rw [firstMinBy, if_neg (not_lt.mpr hc)]; exact hx, ?_⟩
        rcases hcase with ⟨rfl, hall⟩ | ⟨l₁, l₂, rfl, hlt, hleft, hright⟩
        · refine Or.inl ⟨rfl, ?_⟩
          intro y hy
          rcases List.mem_cons.mp hy with rfl | hy
          · exact hc
          · exact hall y hy
        · refine Or.inr ⟨c :: l₁, l₂, rfl, hlt, ?_, hright⟩
          intro y hy
          rcases List.mem_cons.mp hy with rfl | hy
          · exact lt_of_lt_of_le hlt hc
          · exact hleft y hy

/-- The loop starting from `min_diff = inf` on a nonempty candidate list
returns the first candidate of minimal weight: strictly smaller than every
earlier candidate, and `≤` every later one. -/
theorem firstMinBy_none (w : β → α) (l : List β) (hl : l ≠ []) :
    ∃ x l₁ l₂, firstMinBy w none l = some x ∧ l = l₁ ++ x :: l₂ ∧
      (∀ y ∈ l₁, w x < w y) ∧ (∀ y ∈ l₂, w x ≤ w y) := by
  cases l with
  | nil => exact absurd rfl hl
  | cons c cs =>
      obtain ⟨x, hx, hcase⟩ := firstMinBy_some w cs c
      rcases hcase with ⟨rfl, hall⟩ | ⟨l₁, l₂, rfl, hlt, hleft, hright⟩
      · exact ⟨x, [], cs, by rw [firstMinBy]; exact hx, rfl, by simp, hall⟩
      · refine ⟨x, c :: l₁, l₂, by rw [firstMinBy]; exact hx, rfl, ?_, hright⟩
        intro y hy
        rcases List.mem_cons.mp hy with rfl | hy
        · exact hlt
        · exact hleft y hy

/-- A selected candidate is a member of the candidate list. -/
theorem firstMinBy_none_mem (w : β → α) {l : List β} {x : β}
    (h : firstMinBy w none l = some x) : x ∈ l := by
  cases l with
  | nil => simp [firstMinBy] at h
  | cons c cs =>
      obtain ⟨y, l₁, l₂, hy, hsplit, _, _⟩ :=
        firstMinBy_none w (c :: cs) (by simp)
      rw [hy] at h
      cases h
      rw [hsplit]
      simp


theorem combosOf2_sublist {l : List β} {t : β × β}
    (h : t ∈ combosOf2 l) : [t.1, t.2].Sublist l := by
  induction l with
  | nil => simp [combosOf2] at h
  | cons x xs ih =>
      rw [combosOf2, List.mem_append] at h
      rcases h with h | h
      · obtain ⟨a, ha, rfl⟩ := List.mem_map.mp h
        exact (List.cons_sublist_cons).mpr
          (List.singleton_sublist.mpr ha)
      · exact (ih h).trans (List.sublist_cons_self x xs)

theorem combosOf3_sublist {l : List β} {t : β × β × β}
    (h : t ∈ combosOf3 l) : [t.1, t.2.1, t.2.2].Sublist l := by
  induction l with
  | nil => simp [combosOf3] at h
  | cons x xs ih =>
      rw [combosOf3, List.mem_append] at h
      rcases h with h | h
      · obtain ⟨a, ha, rfl⟩ := List.mem_map.mp h
        exact (List.cons_sublist_cons).mpr (combosOf2_sublist ha)
      · exact (ih h).trans (List.sublist_cons_self x xs)

theorem combosOf4_sublist {l : List β} {t : β × β × β × β}
    (h : t ∈ combosOf4 l) : [t.1, t.2.1, t.2.2.1, t.2.2.2].Sublist l := by
  induction l with
  | nil => simp [combosOf4] at h
  | cons x xs ih =>
      rw [combosOf4, List.mem_append] at h
      rcases h with h | h
      · obtain ⟨a, ha, rfl⟩ := List.mem_map.mp h
        exact (List.cons_sublist_cons).mpr (combosOf3_sublist ha)
      · exact (ih h).trans (List.sublist_cons_self x xs)

theorem combosOf2_eq_nil {l : List β} (h : l.length < 2) :
    combosOf2 l = [] := by
  cases l with
  | nil => rfl
  | cons x xs =>
      cases xs with
      | nil => rfl
      | cons y ys => exact absurd h (by simp)

theorem combosOf3_eq_nil {l : List β} (h : l.length < 3) :
    combosOf3 l = [] := by
  induction l with
  | nil => rfl
  | cons x xs ih =>
      rw [combosOf3, combosOf2_eq_nil (by simp at h; omega),
        ih (by simp at h; omega)]
      simp

theorem combosOf4_eq_nil {l : List β} (h : l.length < 4) :
    combosOf4 l = [] := by
  induction l with
  | nil => rfl
  | cons x xs ih =>
      rw [combosOf4, combosOf3_eq_nil (by simp at h; omega),
        ih (by simp at h; omega)]
      simp


theorem find?_none_of_name_not_mem {γ : Type} {l : List (Player γ)}
    {n : String} (h : n ∉ l.map (fun r => r.name)) :
    l.find? (fun r => r.name == n) = none := by
  rw [List.find?_eq_none]
  intro x hx hbeq
  exact h (List.mem_map.mpr ⟨x, hx, by simpa using hbeq⟩)

/-- Deleting the (unique) dict entry keyed `n` makes lookups of `n` fail. -/
theorem lookup_eraseP_self {γ : Type} {l : List (Player γ)} {n : String}
    (hnd : (l.map (fun r => r.name)).Nodup) :
    (l.eraseP (fun r => r.name == n)).find? (fun r => r.name == n) = none := by
  induction l with
  | nil => rfl
  | cons r rest ih =>
      simp only [List.map_cons, List.nodup_cons] at hnd
      by_cases hr : r.name = n
      · rw [List.eraseP_cons_of_pos (by simpa using hr)]
        exact find?_none_of_name_not_mem (hr ▸ hnd.1)
      · rw [List.eraseP_cons_of_neg (by simpa using hr),
          List.find?_cons_of_neg _ (by simpa using hr)]
        exact ih hnd.2

/-- Deleting more entries cannot make a failed lookup succeed. -/
theorem find?_eraseP_none {γ : Type} {l : List (Player γ)} {n : String}
    (p : Player γ → Bool)
    (h : l.find? (fun r => r.name == n) = none) :
    (l.eraseP p).find? (fun r => r.name == n) = none := by
  rw [List.find?_eq_none] at h ⊢
  intro x hx
  exact h x (List.mem_of_mem_eraseP hx)

theorem nodup_names_eraseP {γ : Type} {l : List (Player γ)}
    (p : Player γ → Bool)
    (hnd : (l.map (fun r => r.name)).Nodup) :
    ((l.eraseP p).map (fun r => r.name)).Nodup :=
  List.Nodup.sublist (List.Sublist.map _ (List.eraseP_sublist l)) hnd

/-- Replacing the value stored under an existing key leaves the dict's key
sequence unchanged. -/
theorem names_map_dictReplace {γ : Type} (l : List (Player γ))
    (p : Player γ) :
    (l.map (fun r => if r.name = p.name then p else r)).map
      (fun r => r.name) = l.map (fun r => r.name) := by
  induction l with
  | nil => rfl
  | cons r rest ih =>
      by_cases hr : r.name = p.name
      · simp [hr, ih]
      · simp only [List.map_cons, if_neg hr, ih]

/-- After replacing the value under an existing key, lookup returns the new
value. -/
theorem find?_dictReplace {γ : Type} {l : List (Player γ)} {p : Player γ}
    (h : ∃ r ∈ l, r.name = p.name) :
    (l.map (fun r => if r.name = p.name then p else r)).find?
      (fun r => r.name == p.name) = some p := by
  induction l with
  | nil => simp at h
  | cons r rest ih =>
      by_cases hr : r.name = p.name
      · simp only [List.map_cons, if_pos hr]
        rw [List.find?_cons_of_pos _ (by simp)]
      · simp only [List.map_cons, if_neg hr]
        rw [List.find?_cons_of_neg _ (by simpa using hr)]
        apply ih
        rcases h with ⟨x, hx, hname⟩
        rcases List.mem_cons.mp hx with rfl | hx
        · exact absurd hname hr
        · exact ⟨x, hx, hname⟩

/-- `expected(a,b) + expected(b,a) = 1` for the program's expectation
function at real exponentiation. -/
theorem eloExpectation_complement (a b : ℝ) :
    eloExpectationG tenPowR a b + eloExpectationG tenPowR b a = 1 := by
  unfold eloExpectationG tenPowR
  have hx : (0 : ℝ) < (10 : ℝ) ^ ((b - a) / 400) :=
    Real.rpow_pos_of_pos (by norm_num) _
  have hneg : ((a - b) / 400 : ℝ) = -((b - a) / 400) := by ring
  rw [hneg, Real.rpow_neg (by norm_num : (0 : ℝ) ≤ 10)]
  field_simp
  ring

theorem one_lt_tenPowR_of_pos {x : ℝ} (hx : 0 < x) : 1 < tenPowR x := by
  unfold tenPowR
  rw [Real.one_lt_rpow_iff_of_pos (by norm_num : (0 : ℝ) < 10)]
  exact Or.inl ⟨by norm_num, hx⟩

end Lemmas

section Claims

/-- Claim C1, counterexample: on the spec's example pool with ratings
`[1000, 1005, 1200]`, v4.py's `create_match('singles')` does not select the
smallest-adjacent-gap pair `(1000, 1005)`: it sorts descending and takes
the two top-rated players, returning the players rated `1200` and `1005`
and leaving the `1000`-rated player in the pool. -/
theorem c1_counterexample :
    createMatchV4 qPoolV4 .singles =
      (some ⟨0, .singles pC1200 pB1005, true, none, none⟩,
        ⟨[pA1000], [⟨0, .singles pC1200 pB1005, true, none, none⟩]⟩) ∧
    pC1200.elo = 1200 ∧ pB1005.elo = 1005 ∧ pA1000.elo = 1000 ∧
    (1200 : ℚ) ≠ 1000 ∧ (1200 : ℚ) ≠ 1005 := by
  decide

/-- Claim C6 (amended): v4.py's doubles pairing on any pool with fewer
than 4 players returns no match and leaves the whole queue state (players,
availability flags, ledger) unchanged — the clean
`InsufficientPlayersError` behaviour; v1.py's doubles pairing on a pool of
size 2 or 3 instead reaches the `p1.availability = False` line with
`p1 = None` and dies with an uncaught `AttributeError`, also before any
state change. -/
theorem c6_theorem {α : Type} [LinearOrderedRing α] :
    (∀ q : QueueV4 α, q.players.length < 4 →
      createMatchV4 q .doubles = (none, q)) ∧
    (∀ q : QueueV1 α, 2 ≤ q.players.length → q.players.length < 4 →
      createMatchV1 q .doubles = (.error .noneCrash, q)) := by
  constructor
  · intro q h
    by_cases h2 : q.players.length < 2
    · simp only [createMatchV4, if_pos h2]
    · simp only [createMatchV4, if_neg h2, if_pos h]
  · intro q h2 h4
    have hc : combosOf4 (sortAsc q.players) = [] :=
      combosOf4_eq_nil (by rw [length_sortAsc]; omega)
    simp only [createMatchV1, if_neg (by omega : ¬ q.players.length < 2),
      hc, firstMinBy]

/-- Claim C6, witness at the pool of size 3 from the spec's example. -/
theorem c6_witness :
    createMatchV4 qTrioV4 .doubles = (none, qTrioV4) ∧
    createMatchV1 zTrioV1 .doubles = (.error .noneCrash, zTrioV1) :=
  ⟨c6_theorem.1 qTrioV4 (by decide), c6_theorem.2 zTrioV1 (by decide) (by decide)⟩

/-- Claim C6, counterexample to the claim as stated: on a pool of size 3,
v1.py's `create_match('doubles')` fails with the `None`-dereference crash
(`AttributeError`), not with the clean insufficient-players rejection, so
"fails with `InsufficientPlayersError`" does not hold of v1. -/
theorem c6_counterexample :
    createMatchV1 zTrioV1 .doubles = (.error .noneCrash, zTrioV1) ∧
    V1Err.noneCrash ≠ V1Err.notEnough := by
  decide

/-- Claim C7, counterexample: in v4.py a selected player's `availability`
flag is NOT false immediately after selection — selection deletes the
player from the registry dict and never touches the flag, which is still
`true` on the players stored in the created match. -/
theorem c7_counterexample :
    createMatchV4 qTwoV4 .singles =
      (some ⟨0, .singles pC1200 pA1000, true, none, none⟩,
        ⟨[], [⟨0, .singles pC1200 pA1000, true, none, none⟩]⟩) ∧
    pC1200.availability = true ∧ pA1000.availability = true ∧
    pC1200.availability ≠ false := by
  decide

/-- Claim C7 (amended): in v4.py, players selected by either pairing
operation (`create_match('singles')` or `create_match('doubles')`) keep
their `availability` flag unchanged (still `true` when the whole pool was
available, as in the reference flow — selection removes them from the
registry instead of flagging them), and immediately after the match's
outcome is recorded every selected player's flag is `true`
(`calculate_elo` sets `availability = True`). -/
theorem c7_theorem {α : Type} [LinearOrderedField α] (tenPow : α → α) :
    (∀ (q : QueueV4 α) (m : MatchV4 α) (q' : QueueV4 α) (o : α),
      (∀ p ∈ q.players, p.availability = true) →
      createMatchV4 q .singles = (some m, q') →
      ∃ p₁ p₂, m.players = .singles p₁ p₂ ∧
        p₁.availability = true ∧ p₂.availability = true ∧
        ∃ r₁ r₂, recordOutcomeG tenPow m.players o = .singles r₁ r₂ ∧
          r₁.availability = true ∧ r₂.availability = true) ∧
    (∀ (q : QueueV4 α) (m : MatchV4 α) (q' : QueueV4 α) (o : α),
      (∀ p ∈ q.players, p.availability = true) →
      createMatchV4 q .doubles = (some m, q') →
      ∃ t₁ t₂ t₃ t₄, m.players = .doubles (t₁, t₂) (t₃, t₄) ∧
        t₁.availability = true ∧ t₂.availability = true ∧
        t₃.availability = true ∧ t₄.availability = true ∧
        ∃ r₁ r₂ r₃ r₄,
          recordOutcomeG tenPow m.players o = .doubles (r₁, r₂) (r₃, r₄) ∧
          r₁.availability = true ∧ r₂.availability = true ∧
          r₃.availability = true ∧ r₄.availability = true) := by
  constructor
  · intro q m q' o hall h
    by_cases hlen : q.players.length < 2
    · rw [createMatchV4, if_pos hlen] at h
      exact absurd h (by simp)
    · rw [createMatchV4, if_neg hlen] at h
      rcases hs : sortDesc q.players with _ | ⟨p₁, _ | ⟨p₂, rest⟩⟩ <;>
        rw [hs] at h
      · exact absurd h (by simp)
      · exact absurd h (by simp)
      · simp only [Prod.mk.injEq, Option.some.injEq] at h
        have hp₁ : p₁ ∈ q.players :=
          mem_sortDesc.mp (by rw [hs]; exact List.mem_cons_self _ _)
        have hp₂ : p₂ ∈ q.players :=
          mem_sortDesc.mp (by rw [hs]; simp)
        refine ⟨p₁, p₂, by rw [← h.1], hall p₁ hp₁, hall p₂ hp₂, ?_⟩
        rw [← h.1]
        exact ⟨_, _, rfl, rfl, rfl⟩
  · intro q m q' o hall h
    by_cases hlen4 : q.players.length < 4
    · by_cases hlen : q.players.length < 2
      · rw [createMatchV4, if_pos hlen] at h
        exact absurd h (by simp)
      · rw [createMatchV4, if_neg hlen] at h
        rw [if_pos hlen4] at h
        exact absurd h (by simp)
    · have hlen : ¬ q.players.length < 2 := by omega
      rw [createMatchV4, if_neg hlen] at h
      rw [if_neg hlen4] at h
      rcases hs : sortDesc q.players with
        _ | ⟨p₁, _ | ⟨p₂, _ | ⟨p₃, _ | ⟨p₄, rest⟩⟩⟩⟩ <;> rw [hs] at h
      · exact absurd h (by simp)
      · exact absurd h (by simp)
      · exact absurd h (by simp)
      · exact absurd h (by simp)
      · simp only [Prod.mk.injEq, Option.some.injEq] at h
        have hp₁ : p₁ ∈ q.players :=
          mem_sortDesc.mp (by rw [hs]; exact List.mem_cons_self _ _)
        have hp₂ : p₂ ∈ q.players := mem_sortDesc.mp (by rw [hs]; simp)
        have hp₃ : p₃ ∈ q.players := mem_sortDesc.mp (by rw [hs]; simp)
        have hp₄ : p₄ ∈ q.players := mem_sortDesc.mp (by rw [hs]; simp)
        refine ⟨p₁, p₂, p₃, p₄, by rw [← h.1], hall p₁ hp₁, hall p₂ hp₂,
          hall p₃ hp₃, hall p₄ hp₄, ?_⟩
        rw [← h.1]
        exact ⟨_, _, _, _, rfl, rfl, rfl, rfl, rfl⟩

/-- Claim C7, witness: the amended statement evaluated on a concrete
two-player pool (singles) and a concrete four-player pool (doubles). -/
theorem c7_witness :
    (∃ p₁ p₂,
      (⟨0, .singles pC1200 pA1000, true, none, none⟩ : MatchV4 ℚ).players =
        .singles p₁ p₂ ∧
      p₁.availability = true ∧ p₂.availability = true ∧
      ∃ r₁ r₂,
        recordOutcomeG id
          (⟨0, .singles pC1200 pA1000, true, none, none⟩ :
            MatchV4 ℚ).players 1 = .singles r₁ r₂ ∧
        r₁.availability = true ∧ r₂.availability = true) ∧
    (∃ t₁ t₂ t₃ t₄,
      mFourOut.players = .doubles (t₁, t₂) (t₃, t₄) ∧
      t₁.availability = true ∧ t₂.availability = true ∧
      t₃.availability = true ∧ t₄.availability = true ∧
      ∃ r₁ r₂ r₃ r₄,
        recordOutcomeG id mFourOut.players 1 = .doubles (r₁, r₂) (r₃, r₄) ∧
        r₁.availability = true ∧ r₂.availability = true ∧
        r₃.availability = true ∧ r₄.availability = true) :=
  ⟨(c7_theorem id).1 qTwoV4 ⟨0, .singles pC1200 pA1000, true, none, none⟩
      ⟨[], [⟨0, .singles pC1200 pA1000, true, none, none⟩]⟩ 1
      (by decide) (by decide),
    (c7_theorem id).2 qFourV4 mFourOut qFourAfter 1
      (by decide) (by decide)⟩

/-- Claim C8, counterexample: v4.py's `add_player` with an already-present
name does not fail — it silently replaces the stored record, so the lookup
afterwards returns the new player, not the unmodified existing one. -/
theorem c8_counterexample :
    lookupPlayer (addPlayer ⟨[pOldX], []⟩ pNewX) "x" = some pNewX ∧
    pNewX ≠ pOldX ∧ pNewX.id ≠ pOldX.id ∧
    pNewX.matchHistory ≠ pOldX.matchHistory := by
  decide

/-- Claim C8 (amended): adding a player whose name is already a registry
key never fails; the dict assignment keeps the key sequence unchanged but
replaces the stored record, and a subsequent lookup of that name returns
the newly added player. -/
theorem c8_theorem {α : Type} [LinearOrderedField α] (q : QueueV4 α)
    (p : Player α) (h : p.name ∈ q.players.map (fun r => r.name)) :
    (addPlayer q p).players.map (fun r => r.name) =
      q.players.map (fun r => r.name) ∧
    lookupPlayer (addPlayer q p) p.name = some p := by
  obtain ⟨r, hr, hname⟩ := List.mem_map.mp h
  have hany : q.players.any (fun r => r.name == p.name) = true :=
    List.any_eq_true.mpr ⟨r, hr, by simpa using hname⟩
  constructor
  · rw [addPlayer]
    simp only [if_pos hany]
    exact names_map_dictReplace q.players p
  · rw [lookupPlayer, addPlayer]
    simp only [if_pos hany]
    exact find?_dictReplace ⟨r, hr, hname⟩

/-- Claim C8, witness: the amended statement at a concrete registry
already holding the name "x". -/
theorem c8_witness :
    ((addPlayer ⟨[pOldX], []⟩ pNewX).players.map (fun r => r.name) =
      (⟨[pOldX], []⟩ : QueueV4 ℚ).players.map (fun r => r.name)) ∧
    lookupPlayer (addPlayer ⟨[pOldX], []⟩ pNewX) pNewX.name = some pNewX :=
  c8_theorem ⟨[pOldX], []⟩ pNewX (by decide)

/-- Claim C9: the persistence round trip fails on any registry holding a
non-integral rating (which every recorded match produces): saving the
player rated `1216.5` writes the row `("0", "x", "1216.5")`, and reloading
applies `int("1216.5")`, which raises `ValueError`, so the reloaded
registry is empty rather than equivalent to the original. -/
theorem c9_code_eval :
    savePlayersToCsv qC9 = [("0", "x", "1216.5")] ∧
    parsePyInt "1216.5" = none ∧
    loadPlayersFromCsv (savePlayersToCsv qC9) emptyQueueV4 = emptyQueueV4 ∧
    qC9.players ≠ [] := by
  decide

/-- Claim C10: v4.py's `create_match` — singles and doubles alike —
deletes the selected players from the registry dict outright
(`remove_player` = `del`), so while the match is unresolved a lookup of any
selected name fails; recording the outcome rewrites only the players held
by the match — the registry is untouched and the names still fail to
resolve — even though each player's own `availability` flag is `true` after
resolution. -/
theorem c10_theorem {α : Type} [LinearOrderedField α] (tenPow : α → α) :
    (∀ (q : QueueV4 α) (m : MatchV4 α) (q' : QueueV4 α) (o : α)
      (sc : String), (q.players.map (fun r => r.name)).Nodup →
      createMatchV4 q .singles = (some m, q') →
      ∃ p₁ p₂, m.players = .singles p₁ p₂ ∧
        lookupPlayer q' p₁.name = none ∧
        lookupPlayer q' p₂.name = none ∧
        (recordMatchOutcomeV4 tenPow q' m o sc).1 = q' ∧
        ∃ r₁ r₂,
          (recordMatchOutcomeV4 tenPow q' m o sc).2.players =
            .singles r₁ r₂ ∧
          r₁.name = p₁.name ∧ r₂.name = p₂.name ∧
          r₁.availability = true ∧ r₂.availability = true ∧
          lookupPlayer (recordMatchOutcomeV4 tenPow q' m o sc).1 r₁.name =
            none ∧
          lookupPlayer (recordMatchOutcomeV4 tenPow q' m o sc).1 r₂.name =
            none) ∧
    (∀ (q : QueueV4 α) (m : MatchV4 α) (q' : QueueV4 α) (o : α)
      (sc : String), (q.players.map (fun r => r.name)).Nodup →
      createMatchV4 q .doubles = (some m, q') →
      ∃ t₁ t₂ t₃ t₄, m.players = .doubles (t₁, t₂) (t₃, t₄) ∧
        lookupPlayer q' t₁.name = none ∧
        lookupPlayer q' t₂.name = none ∧
        lookupPlayer q' t₃.name = none ∧
        lookupPlayer q' t₄.name = none ∧
        (recordMatchOutcomeV4 tenPow q' m o sc).1 = q' ∧
        ∃ r₁ r₂ r₃ r₄,
          (recordMatchOutcomeV4 tenPow q' m o sc).2.players =
            .doubles (r₁, r₂) (r₃, r₄) ∧
          r₁.name = t₁.name ∧ r₂.name = t₂.name ∧
          r₃.name = t₃.name ∧ r₄.name = t₄.name ∧
          r₁.availability = true ∧ r₂.availability = true ∧
          r₃.availability = true ∧ r₄.availability = true ∧
          lookupPlayer (recordMatchOutcomeV4 tenPow q' m o sc).1 r₁.name =
            none ∧
          lookupPlayer (recordMatchOutcomeV4 tenPow q' m o sc).1 r₂.name =
            none ∧
          lookupPlayer (recordMatchOutcomeV4 tenPow q' m o sc).1 r₃.name =
            none ∧
          lookupPlayer (recordMatchOutcomeV4 tenPow q' m o sc).1 r₄.name =
            none) := by
  constructor
  · intro q m q' o sc hnd h
    by_cases hlen : q.players.length < 2
    · rw [createMatchV4, if_pos hlen] at h
      exact absurd h (by simp)
    · rw [createMatchV4, if_neg hlen] at h
      rcases hs : sortDesc q.players with _ | ⟨p₁, _ | ⟨p₂, rest⟩⟩ <;>
        rw [hs] at h
      · exact absurd h (by simp)
      · exact absurd h (by simp)
      · simp only [Prod.mk.injEq, Option.some.injEq] at h
        have hq' : q'.players =
            (q.players.eraseP (fun r => r.name == p₁.name)).eraseP
              (fun r => r.name == p₂.name) := by
          rw [← h.2]
          rfl
        have hl₁ : lookupPlayer q' p₁.name = none := by
          rw [lookupPlayer, hq']
          exact find?_eraseP_none _ (lookup_eraseP_self hnd)
        have hl₂ : lookupPlayer q' p₂.name = none := by
          rw [lookupPlayer, hq']
          exact lookup_eraseP_self (nodup_names_eraseP _ hnd)
        refine ⟨p₁, p₂, by rw [← h.1], hl₁, hl₂, rfl, ?_⟩
        rw [← h.1]
        exact ⟨_, _, rfl, rfl, rfl, rfl, rfl, hl₁, hl₂⟩
  · intro q m q' o sc hnd h
    by_cases hlen4 : q.players.length < 4
    · by_cases hlen : q.players.length < 2
      · rw [createMatchV4, if_pos hlen] at h
        exact absurd h (by simp)
      · rw [createMatchV4, if_neg hlen] at h
        rw [if_pos hlen4] at h
        exact absurd h (by simp)
    · have hlen : ¬ q.players.length < 2 := by omega
      rw [createMatchV4, if_neg hlen] at h
      rw [if_neg hlen4] at h
      rcases hs : sortDesc q.players with
        _ | ⟨p₁, _ | ⟨p₂, _ | ⟨p₃, _ | ⟨p₄, rest⟩⟩⟩⟩ <;> rw [hs] at h
      · exact absurd h (by simp)
      · exact absurd h (by simp)
      · exact absurd h (by simp)
      · exact absurd h (by simp)
      · simp only [Prod.mk.injEq, Option.some.injEq] at h
        have hnd₁ := nodup_names_eraseP (fun r => r.name == p₁.name) hnd
        have hnd₂ := nodup_names_eraseP (fun r => r.name == p₂.name) hnd₁
        have hnd₃ := nodup_names_eraseP (fun r => r.name == p₃.name) hnd₂
        have hq' : q'.players =
            ((((q.players.eraseP (fun r => r.name == p₁.name)).eraseP
              (fun r => r.name == p₂.name)).eraseP
              (fun r => r.name == p₃.name)).eraseP
              (fun r => r.name == p₄.name)) := by
          rw [← h.2]
          rfl
        have hl₁ : lookupPlayer q' p₁.name = none := by
          rw [lookupPlayer, hq']
          exact find?_eraseP_none _ (find?_eraseP_none _
            (find?_eraseP_none _ (lookup_eraseP_self hnd)))
        have hl₂ : lookupPlayer q' p₂.name = none := by
          rw [lookupPlayer, hq']
          exact find?_eraseP_none _ (find?_eraseP_none _
            (lookup_eraseP_self hnd₁))
        have hl₃ : lookupPlayer q' p₃.name = none := by
          rw [lookupPlayer, hq']
          exact find?_eraseP_none _ (lookup_eraseP_self hnd₂)
        have hl₄ : lookupPlayer q' p₄.name = none := by
          rw [lookupPlayer, hq']
          exact lookup_eraseP_self hnd₃
        refine ⟨p₁, p₂, p₃, p₄, by rw [← h.1], hl₁, hl₂, hl₃, hl₄, rfl, ?_⟩
        rw [← h.1]
        exact ⟨_, _, _, _, rfl, rfl, rfl, rfl, rfl, rfl, rfl, rfl, rfl,
          hl₁, hl₂, hl₃, hl₄⟩

/-- Claim C10, witness: evaluated on a concrete two-player registry
(singles selection) and a concrete four-player registry (doubles
selection). -/
theorem c10_witness :
    (∃ p₁ p₂,
      (⟨0, .singles pC1200 pA1000, true, none, none⟩ : MatchV4 ℚ).players =
        .singles p₁ p₂ ∧
      lookupPlayer (⟨[], [⟨0, .singles pC1200 pA1000, true, none, none⟩]⟩ :
        QueueV4 ℚ) p₁.name = none ∧
      lookupPlayer (⟨[], [⟨0, .singles pC1200 pA1000, true, none, none⟩]⟩ :
        QueueV4 ℚ) p₂.name = none ∧
      (recordMatchOutcomeV4 id
        (⟨[], [⟨0, .singles pC1200 pA1000, true, none, none⟩]⟩ : QueueV4 ℚ)
        ⟨0, .singles pC1200 pA1000, true, none, none⟩ 1 "21-15").1 =
        ⟨[], [⟨0, .singles pC1200 pA1000, true, none, none⟩]⟩ ∧
      ∃ r₁ r₂,
        (recordMatchOutcomeV4 id
          (⟨[], [⟨0, .singles pC1200 pA1000, true, none, none⟩]⟩ :
            QueueV4 ℚ)
          ⟨0, .singles pC1200 pA1000, true, none, none⟩ 1
          "21-15").2.players = .singles r₁ r₂ ∧
        r₁.name = p₁.name ∧ r₂.name = p₂.name ∧
        r₁.availability = true ∧ r₂.availability = true ∧
        lookupPlayer (recordMatchOutcomeV4 id
          (⟨[], [⟨0, .singles pC1200 pA1000, true, none, none⟩]⟩ :
            QueueV4 ℚ)
          ⟨0, .singles pC1200 pA1000, true, none, none⟩ 1 "21-15").1
          r₁.name = none ∧
        lookupPlayer (recordMatchOutcomeV4 id
          (⟨[], [⟨0, .singles pC1200 pA1000, true, none, none⟩]⟩ :
            QueueV4 ℚ)
          ⟨0, .singles pC1200 pA1000, true, none, none⟩ 1 "21-15").1
          r₂.name = none) ∧
    (∃ t₁ t₂ t₃ t₄,
      mFourOut.players = .doubles (t₁, t₂) (t₃, t₄) ∧
      lookupPlayer qFourAfter t₁.name = none ∧
      lookupPlayer qFourAfter t₂.name = none ∧
      lookupPlayer qFourAfter t₃.name = none ∧
      lookupPlayer qFourAfter t₄.name = none ∧
      (recordMatchOutcomeV4 id qFourAfter mFourOut 1 "21-15").1 =
        qFourAfter ∧
      ∃ r₁ r₂ r₃ r₄,
        (recordMatchOutcomeV4 id qFourAfter mFourOut 1 "21-15").2.players =
          .doubles (r₁, r₂) (r₃, r₄) ∧
        r₁.name = t₁.name ∧ r₂.name = t₂.name ∧
        r₃.name = t₃.name ∧ r₄.name = t₄.name ∧
        r₁.availability = true ∧ r₂.availability = true ∧
        r₃.availability = true ∧ r₄.availability = true ∧
        lookupPlayer (recordMatchOutcomeV4 id qFourAfter mFourOut 1
          "21-15").1 r₁.name = none ∧
        lookupPlayer (recordMatchOutcomeV4 id qFourAfter mFourOut 1
          "21-15").1 r₂.name = none ∧
        lookupPlayer (recordMatchOutcomeV4 id qFourAfter mFourOut 1
          "21-15").1 r₃.name = none ∧
        lookupPlayer (recordMatchOutcomeV4 id qFourAfter mFourOut 1
          "21-15").1 r₄.name = none) :=
  ⟨(c10_theorem id).1 qTwoV4 ⟨0, .singles pC1200 pA1000, true, none, none⟩
      ⟨[], [⟨0, .singles pC1200 pA1000, true, none, none⟩]⟩ 1 "21-15"
      (by decide) (by decide),
    (c10_theorem id).2 qFourV4 mFourOut qFourAfter 1 "21-15"
      (by decide) (by decide)⟩

/-- Claim C1 (amended): v1.py's `create_match('singles')`, on every pool of
at least 2 players, succeeds and returns the pair at the first (leftmost)
position of the ascending-by-rating sorted pool where the adjacent rating
gap is minimal — strictly smaller than every earlier adjacent gap and `≤`
every later one — with the two players in ascending-rating order (marked
unavailable), the pair removed from the pool, and the match appended. -/
theorem c1_theorem {α : Type} [LinearOrderedRing α] (q : QueueV1 α)
    (h2 : 2 ≤ q.players.length) :
    ∃ (p₁ p₂ : Player α) (m : MatchV1 α) (q' : QueueV1 α),
      createMatchV1 q .singles = (.ok m, q') ∧
      m.players = .singles (markUnavailable p₁) (markUnavailable p₂) ∧
      p₁.elo ≤ p₂.elo ∧
      q'.players = (q.players.erase p₁).erase p₂ ∧
      ∃ l₁ l₂,
        (sortAsc q.players).zip (sortAsc q.players).tail =
          l₁ ++ (p₁, p₂) :: l₂ ∧
        (∀ x ∈ l₁, singlesGap (p₁, p₂) < singlesGap x) ∧
        (∀ x ∈ l₂, singlesGap (p₁, p₂) ≤ singlesGap x) := by
  have hne : (sortAsc q.players).zip (sortAsc q.players).tail ≠ [] := by
    apply List.ne_nil_of_length_pos
    rw [List.length_zip, List.length_tail, length_sortAsc]
    omega
  obtain ⟨x, l₁, l₂, hx, hsplit, hleft, hright⟩ :=
    firstMinBy_none singlesGap _ hne
  obtain ⟨p₁, p₂⟩ := x
  have hmem : (p₁, p₂) ∈ (sortAsc q.players).zip (sortAsc q.players).tail := by
    rw [hsplit]
    exact List.mem_append_right _ (List.mem_cons_self _ _)
  have hle : p₁.elo ≤ p₂.elo :=
    pairwise_zip_tail (pairwise_sortAsc q.players) _ hmem
  have hlt2 : ¬ q.players.length < 2 := by omega
  refine ⟨p₁, p₂,
    ⟨q.matchList.length,
      .singles (markUnavailable p₁) (markUnavailable p₂), true, none⟩,
    ⟨(q.players.erase p₁).erase p₂,
      q.matchList ++ [⟨q.matchList.length,
        .singles (markUnavailable p₁) (markUnavailable p₂), true, none⟩]⟩,
    ?_, rfl, hle, rfl, l₁, l₂, hsplit, hleft, hright⟩
  simp only [createMatchV1, if_neg hlt2, hx]

/-- Claim C1, witness: the amended statement evaluated on the spec's
example pool `[1000, 1005, 1200]` — the pair rated `(1000, 1005)` is
selected and the `1200`-rated player is left in the pool. -/
theorem c1_witness :
    (2 ≤ zPoolV1.players.length) ∧
    (∃ (p₁ p₂ : Player ℤ) (m : MatchV1 ℤ) (q' : QueueV1 ℤ),
      createMatchV1 zPoolV1 .singles = (.ok m, q') ∧
      m.players = .singles (markUnavailable p₁) (markUnavailable p₂) ∧
      p₁.elo ≤ p₂.elo ∧
      q'.players = (zPoolV1.players.erase p₁).erase p₂ ∧
      ∃ l₁ l₂,
        (sortAsc zPoolV1.players).zip (sortAsc zPoolV1.players).tail =
          l₁ ++ (p₁, p₂) :: l₂ ∧
        (∀ x ∈ l₁, singlesGap (p₁, p₂) < singlesGap x) ∧
        (∀ x ∈ l₂, singlesGap (p₁, p₂) ≤ singlesGap x)) ∧
    createMatchV1 zPoolV1 .singles = (.ok mSinglesOut, qSinglesAfter) ∧
    mSinglesOut.players =
      .singles ⟨"0", "a", 1000, false, []⟩ ⟨"1", "b", 1005, false, []⟩ ∧
    qSinglesAfter.players = [zC1200] ∧ zC1200.elo = 1200 :=
  ⟨by decide, c1_theorem zPoolV1 (by decide), by decide, by decide,
    by decide, by decide⟩

/-- Claim C4 (amended): whenever v1.py's doubles pairing succeeds, the
selected quadruple `(p1, p2, p3, p4)` (ascending positions in the
ascending-sorted pool) always has `p1.elo + p2.elo ≤ p3.elo + p4.elo`, so
the code's comparison `p1.elo + p2.elo > p3.elo + p4.elo` is never true and
the final assignment is always the `else` branch: `team1 = [p1, p3]` and
`team2 = {p2, p4}` — not the fixed split's greater-sum pair. -/
theorem c4_theorem {α : Type} [LinearOrderedRing α] (q : QueueV1 α)
    (m : MatchV1 α) (q' : QueueV1 α)
    (h : createMatchV1 q .doubles = (.ok m, q')) :
    ∃ p₁ p₂ p₃ p₄,
      firstMinBy doublesGap none (combosOf4 (sortAsc q.players)) =
        some (p₁, p₂, p₃, p₄) ∧
      ¬ (p₁.elo + p₂.elo > p₃.elo + p₄.elo) ∧
      m.players = .doubles (markUnavailable p₁, markUnavailable p₃)
        (markUnavailable p₂, markUnavailable p₄) := by
  by_cases hlen : q.players.length < 2
  · rw [createMatchV1, if_pos hlen] at h
    exact absurd h (by simp)
  · rcases hfm : firstMinBy doublesGap none (combosOf4 (sortAsc q.players))
      with _ | ⟨p₁, p₂, p₃, p₄⟩
    · rw [createMatchV1, if_neg hlen] at h
      simp only [hfm] at h
      exact absurd h (by simp)
    · have hmem := firstMinBy_none_mem doublesGap hfm
      have hsub := combosOf4_sublist hmem
      have hpw := List.Pairwise.sublist hsub (pairwise_sortAsc q.players)
      simp only [List.pairwise_cons, List.mem_cons, List.mem_singleton,
        List.not_mem_nil] at hpw
      obtain ⟨ha, hb, -⟩ := hpw
      have h13 : p₁.elo ≤ p₃.elo := ha p₃ (Or.inr (Or.inl rfl))
      have h24 : p₂.elo ≤ p₄.elo := hb p₄ (Or.inr (Or.inl rfl))
      have hnot : ¬ (p₁.elo + p₂.elo > p₃.elo + p₄.elo) :=
        not_lt.mpr (add_le_add h13 h24)
      rw [createMatchV1, if_neg hlen] at h
      simp only [hfm, if_neg hnot, Prod.mk.injEq, Except.ok.injEq] at h
      refine ⟨p₁, p₂, p₃, p₄, rfl, hnot, ?_⟩
      rw [← h.1]

/-- Claim C4, counterexample: on the pool rated `[1000, 1000, 1000, 1200]`
the only 4-subset's fixed split is `{a, b}` vs `{c, d}` with sums
`2000 < 2200`, so the pair with the strictly greater sum is `{c, d}`; but
the produced `team1` is `[a, c]` — its first member is the `1000`-rated
player `a`, which is not in `{c, d}` — refuting "the pair with the strictly
greater sum becomes team1". -/
theorem c4_counterexample :
    createMatchV1 zDoublesV1 .doubles = (.ok mDoublesOut, qDoublesAfter) ∧
    zA1000.elo + zDB1000.elo < zDC1000.elo + zDD1200.elo ∧
    mDoublesOut.players =
      .doubles (⟨"0", "a", 1000, false, []⟩, ⟨"2", "c", 1000, false, []⟩)
        (⟨"1", "b", 1000, false, []⟩, ⟨"3", "d", 1200, false, []⟩) ∧
    ("a" : String) ≠ "c" ∧ ("a" : String) ≠ "d" := by
  decide

/-- Claim C4, witness: the amended statement evaluated on the concrete
four-player pool. -/
theorem c4_witness :
    ∃ p₁ p₂ p₃ p₄,
      firstMinBy doublesGap none (combosOf4 (sortAsc zDoublesV1.players)) =
        some (p₁, p₂, p₃, p₄) ∧
      ¬ (p₁.elo + p₂.elo > p₃.elo + p₄.elo) ∧
      mDoublesOut.players =
        .doubles (markUnavailable p₁, markUnavailable p₃)
          (markUnavailable p₂, markUnavailable p₄) :=
  c4_theorem zDoublesV1 mDoublesOut qDoublesAfter (by decide)

/-- Claim C2: recording outcome 1 for a singles match between two
1200-rated players does NOT change both ratings by ±16.  The first call
`players[0].calculate_elo(players[1], 1)` adds exactly 16 (expectation
`1/2` at equal ratings), but the second call then computes
`players[1]`'s expectation against the already-updated rating 1216, so B
loses `32/(1 + 10^(16/400)) ≈ 15.26`, strictly less than 16 — the code
contradicts the claimed (and intended, zero-sum) behaviour. -/
theorem c2_code_eval :
    ∃ p q : Player ℝ,
      recordOutcomeG tenPowR (.singles pAr pBr) 1 = .singles p q ∧
      p.elo - pAr.elo = 16 ∧
      pBr.elo - q.elo ≠ 16 ∧ pBr.elo - q.elo < 16 := by
  have hA : (calculateEloG tenPowR pAr pBr 1).elo = 1216 := by
    simp only [calculateEloG, eloUpdateG, eloExpectationG, pAr, pBr,
      tenPowR]
    norm_num [Real.rpow_zero]
  have hB : (calculateEloG tenPowR pBr
      (calculateEloG tenPowR pAr pBr 1) (1 - 1)).elo =
      1200 - 32 * (1 / (1 + tenPowR ((16 : ℝ) / 400))) := by
    simp only [calculateEloG, eloUpdateG, eloExpectationG, pAr, pBr,
      tenPowR]
    norm_num [Real.rpow_zero]
    ring_nf
  have ht : 1 < tenPowR ((16 : ℝ) / 400) :=
    one_lt_tenPowR_of_pos (by norm_num)
  have hpos : 0 < 1 + tenPowR ((16 : ℝ) / 400) := by linarith
  refine ⟨_, _, rfl, ?_, ?_, ?_⟩
  · rw [hA]
    simp only [pAr]
    norm_num
  · rw [hB]
    simp only [pBr]
    intro hEq
    have h32 : 32 * (1 / (1 + tenPowR ((16 : ℝ) / 400))) = 16 := by
      linarith
    rw [mul_one_div, div_eq_iff (ne_of_gt hpos)] at h32
    linarith
  · rw [hB]
    simp only [pBr]
    have h32 : 32 * (1 / (1 + tenPowR ((16 : ℝ) / 400))) < 16 := by
      rw [mul_one_div, div_lt_iff₀ hpos]
      linarith
    linarith

/-- Claim C3: for all pre-match ratings `a`, `b` and binary outcome `o`,
applying the pure update with the same `k = 32` to both sides, with
complementary actual values (`o`, `1 - o`) and complementary expected
values (`expected(a,b)`, `expected(b,a)`) both computed from the same
pre-match ratings, conserves rating mass: `Δa + Δb = 0`. -/
theorem c3_theorem (a b o : ℝ) (ho : o = 0 ∨ o = 1) :
    (eloUpdateG 32 a (eloExpectationG tenPowR a b) o - a) +
      (eloUpdateG 32 b (eloExpectationG tenPowR b a) (1 - o) - b) = 0 := by
  have h := eloExpectation_complement a b
  simp only [eloUpdateG]
  linarith

/-- Claim C3, witness at ratings 1200 vs 1000 with outcome 1. -/
theorem c3_witness :
    (eloUpdateG 32 1200 (eloExpectationG tenPowR 1200 1000) 1 - 1200) +
      (eloUpdateG 32 1000 (eloExpectationG tenPowR 1000 1200) (1 - 1) -
        1000) = 0 :=
  c3_theorem 1200 1000 1 (Or.inr rfl)

/-- Claim C5: when a doubles outcome is recorded, each of the four players
is updated against a single virtual-opponent rating equal to the average of
the two opposing players' pre-match ratings (both averages are computed
before any update), with the team-level actual value (`o` for both members
of team 1, `1 - o` for both members of team 2); two teammates get different
expected values only if their own pre-match ratings differ (equal ratings
give equal expectations against the shared virtual opponent). -/
theorem c5_theorem (a b c d : Player ℝ) (o : ℝ) :
    ∃ a' b' c' d',
      recordOutcomeG tenPowR (.doubles (a, b) (c, d)) o =
        .doubles (a', b') (c', d') ∧
      a'.elo = eloUpdateG 32 a.elo
        (eloExpectationG tenPowR a.elo ((c.elo + d.elo) / 2)) o ∧
      b'.elo = eloUpdateG 32 b.elo
        (eloExpectationG tenPowR b.elo ((c.elo + d.elo) / 2)) o ∧
      c'.elo = eloUpdateG 32 c.elo
        (eloExpectationG tenPowR c.elo ((a.elo + b.elo) / 2)) (1 - o) ∧
      d'.elo = eloUpdateG 32 d.elo
        (eloExpectationG tenPowR d.elo ((a.elo + b.elo) / 2)) (1 - o) ∧
      (a.elo = b.elo →
        eloExpectationG tenPowR a.elo ((c.elo + d.elo) / 2) =
          eloExpectationG tenPowR b.elo ((c.elo + d.elo) / 2)) ∧
      (c.elo = d.elo →
        eloExpectationG tenPowR c.elo ((a.elo + b.elo) / 2) =
          eloExpectationG tenPowR d.elo ((a.elo + b.elo) / 2)) := by
  refine ⟨_, _, _, _, rfl, rfl, rfl, rfl, rfl, ?_, ?_⟩
  · intro h
    rw [h]
  · intro h
    rw [h]

/-- Claim C5, witness at a concrete doubles match (team 1 rated 1200/1200,
team 2 rated 1100/1100, outcome 1). -/
theorem c5_witness :
    ∃ a' b' c' d',
      recordOutcomeG tenPowR (.doubles (pAr, pBr) (pCr, pDr)) 1 =
        .doubles (a', b') (c', d') ∧
      a'.elo = eloUpdateG 32 pAr.elo
        (eloExpectationG tenPowR pAr.elo ((pCr.elo + pDr.elo) / 2)) 1 ∧
      b'.elo = eloUpdateG 32 pBr.elo
        (eloExpectationG tenPowR pBr.elo ((pCr.elo + pDr.elo) / 2)) 1 ∧
      c'.elo = eloUpdateG 32 pCr.elo
        (eloExpectationG tenPowR pCr.elo ((pAr.elo + pBr.elo) / 2))
        (1 - 1) ∧
      d'.elo = eloUpdateG 32 pDr.elo
        (eloExpectationG tenPowR pDr.elo ((pAr.elo + pBr.elo) / 2))
        (1 - 1) ∧
      (pAr.elo = pBr.elo →
        eloExpectationG tenPowR pAr.elo ((pCr.elo + pDr.elo) / 2) =
          eloExpectationG tenPowR pBr.elo ((pCr.elo + pDr.elo) / 2)) ∧
      (pCr.elo = pDr.elo →
        eloExpectationG tenPowR pCr.elo ((pAr.elo + pBr.elo) / 2) =
          eloExpectationG tenPowR pDr.elo ((pAr.elo + pBr.elo) / 2)) :=
  c5_theorem pAr pBr pCr pDr 1

end Claims

end BadmintonElo
